import Mathlib

/-!
Verification of the `ReplayMemory` experience-replay ring buffer from
`examples/AutomaticViewPlanning/DQN/expreplay.py`, together with the
metric-emission flow of `ExpReplay._trigger` (same file) and
`Evaluator._trigger` (`examples/LandmarkDetection/DQN/common.py`).

Modelling conventions:
* The four parallel numpy storage arrays become Lean lists of the same
  length (`max_size`).  A state frame is a flat `List Nat` of byte values;
  `action` and `reward` cells are modelled as mathematical `Int` values.
  The numpy dtype conversions on assignment (uint8 / int32 / float32) are
  abstracted as exact value storage: no claim under consideration performs
  arithmetic on stored cells, every claim is settled at the level of which
  stored value occupies which slot, so fixed-width representation effects
  never matter here.
* Python exceptions (`ZeroDivisionError` from `% 0`, `IndexError` from
  out-of-range indexing) are modelled by `Option`: `none` means the call
  raises.
* The axis transpose at the end of `_pad_sample` is a pure layout change
  (the frame axis is moved last); the model keeps the stacked state as the
  list of frames, in window order.
-/

/-- `Experience = namedtuple("Experience", ["state", "action", "reward", "isOver"])`. -/
structure Experience where
  state : List Nat
  action : Int
  reward : Int
  isOver : Bool
  deriving DecidableEq, Repr

/-- Default experience used by `List.getD` on the experience level;
corresponds to reading nothing. -/
def dfltExp : Experience := ⟨[], 0, 0, false⟩

/-- The `ReplayMemory` object: four parallel storage arrays, the write
cursor `_curr_pos`, the valid count `_curr_size`, and the bounded recent
history deque `_hist` (kept oldest-first, as iteration order of the
Python deque). -/
structure ReplayMemory where
  max_size : Nat
  state_shape : Nat
  history_len : Nat
  state : List (List Nat)
  action : List Int
  reward : List Int
  isOver : List Bool
  curr_size : Nat
  curr_pos : Nat
  hist : List Experience
  deriving DecidableEq, Repr

namespace ReplayMemory

/-- `ReplayMemory.__init__`: pre-allocates the four zeroed arrays of
length `max_size`, `_curr_size = 0`, `_curr_pos = 0`, empty deque. -/
def init (max_size state_shape history_len : Nat) : ReplayMemory :=
  { max_size := max_size
    state_shape := state_shape
    history_len := history_len
    state := List.replicate max_size (List.replicate state_shape 0)
    action := List.replicate max_size 0
    reward := List.replicate max_size 0
    isOver := List.replicate max_size false
    curr_size := 0
    curr_pos := 0
    hist := [] }

/-- `ReplayMemory._assign`: writes one experience into all four arrays at
position `pos`. -/
def assign (m : ReplayMemory) (pos : Nat) (e : Experience) : ReplayMemory :=
  { m with
    state := m.state.set pos e.state
    reward := m.reward.set pos e.reward
    action := m.action.set pos e.action
    isOver := m.isOver.set pos e.isOver }

end ReplayMemory

/-- Appending to a Python `deque(maxlen := n)`: the new element goes to the
back and the front is dropped while the bound is exceeded (for `maxlen = 0`
everything is discarded). -/
def dequePush (maxlen : Nat) (xs : List α) (x : α) : List α :=
  (xs ++ [x]).drop (xs.length + 1 - maxlen)

namespace ReplayMemory

/-- `ReplayMemory.append`: write at the cursor, advance the cursor
circularly, grow `_curr_size` while the buffer is filling; then either
clear the recent-history deque (terminal transition) or push the
transition onto it. -/
def append (m : ReplayMemory) (e : Experience) : ReplayMemory :=
  let m1 :=
    if m.curr_size < m.max_size then
      { m.assign m.curr_pos e with
        curr_pos := (m.curr_pos + 1) % m.max_size
        curr_size := m.curr_size + 1 }
    else
      { m.assign m.curr_pos e with
        curr_pos := (m.curr_pos + 1) % m.max_size }
  if e.isOver then { m1 with hist := [] }
  else { m1 with hist := dequePush (m.history_len - 1) m1.hist e }

/-- `ReplayMemory.recent_state`: `history_len - 1` frames, the current
deque contents left-padded with zero frames of the configured shape. -/
def recent_state (m : ReplayMemory) : List (List Nat) :=
  List.replicate ((m.history_len - 1) - m.hist.length)
      (List.replicate m.state_shape 0)
    ++ m.hist.map Experience.state

/-- `ReplayMemory.__len__`. -/
def length (m : ReplayMemory) : Nat := m.curr_size

/-- The experience jointly described by position `i` of the four parallel
arrays. -/
def slotGet (m : ReplayMemory) (i : Nat) : Experience :=
  ⟨m.state.getD i [], m.action.getD i 0, m.reward.getD i 0, m.isOver.getD i false⟩

end ReplayMemory

/-- `ReplayMemory._slice(arr, start, end)`: `arr[start:] ++ arr[:end]`,
with Python slice clamping. -/
def pySlice (arr : List α) (start e : Nat) : List α :=
  arr.drop start ++ arr.take e

/-- The backward scan of `_pad_sample`'s loop
`for k in range(history_len - 2, -1, -1)`: `scanTerminal ov n` inspects
indices `n-1, n-2, ..., 0` in that order and returns the first index whose
terminal flag is set (i.e. the largest such index below `n`).  The loop is
invoked with `n = history_len - 1`. -/
def scanTerminal (ov : List Bool) : Nat → Option Nat
  | 0 => none
  | k + 1 => if ov.getD k false then some k else scanTerminal ov k

/-- The zero-filling part of `_pad_sample`: if the backward scan over the
window prefix finds a terminal flag at index `k`, frames `0..k` of the
(deep-copied) window are filled with zeros; otherwise the window is
returned unchanged. -/
def padState (hl : Nat) (st : List (List Nat)) (ov : List Bool) : List (List Nat) :=
  match scanTerminal ov (hl - 1) with
  | none => st
  | some k => st.mapIdx fun i s => if i ≤ k then s.map (fun _ => 0) else s

/-- The window `sample` cuts out of one storage array: the direct numpy
slice `arr[idx : idx + k]` when `idx + k <= _curr_size`, otherwise the
two-part `_slice(arr, idx, idx + k - _curr_size)`. -/
def winOf (arr : List α) (size idx k : Nat) : List α :=
  if idx + k ≤ size then (arr.drop idx).take k
  else pySlice arr idx (idx + k - size)

namespace ReplayMemory

/-- `ReplayMemory.sample`: translate the logical index through the cursor
modulo `_curr_size` (raising on an empty buffer, modelled as `none`), cut
the `history_len + 1`-element window out of each array — directly when it
fits below `_curr_size`, otherwise by the two-part `_slice` — and run
`_pad_sample`.  The two `none` guards model the `IndexError`s
`_pad_sample` can raise: `isOver[history_len - 2]` when the window is
shorter than the scan range, and `reward[-2]` when the window has fewer
than two elements. -/
def sample (m : ReplayMemory) (i : Nat) :
    Option (List (List Nat) × Int × Int × Bool) :=
  if m.curr_size = 0 then none
  else
    let idx := (m.curr_pos + i) % m.curr_size
    let k := m.history_len + 1
    let st := winOf m.state m.curr_size idx k
    let rw := winOf m.reward m.curr_size idx k
    let ac := winOf m.action m.curr_size idx k
    let ov := winOf m.isOver m.curr_size idx k
    if 2 ≤ m.history_len ∧ ov.length < m.history_len - 1 then none
    else if rw.length < 2 then none
    else some (padState m.history_len st ov,
      rw.getD (rw.length - 2) 0,
      ac.getD (ac.length - 2) 0,
      ov.getD (ov.length - 2) false)

end ReplayMemory

/-- Fold a whole append sequence into a memory. -/
def appendAll (m : ReplayMemory) (es : List Experience) : ReplayMemory :=
  es.foldl ReplayMemory.append m

/-- Scratch scenario of spec §8: capacity 5, history 2, shape 1×1. -/
def scnExp (i : Nat) (ov : Bool) : Experience := ⟨[i], 10 * i, 100 + i, ov⟩

def scnMem : ReplayMemory :=
  appendAll (ReplayMemory.init 5 1 2)
    [scnExp 1 false, scnExp 2 false, scnExp 3 true, scnExp 4 false, scnExp 5 false]

example : scnMem.length = 5 := by decide
example : scnMem.sample 0 = some ([[1], [2], [3]], 102, 20, false) := by decide
example : scnMem.sample 1 = some ([[2], [3], [4]], 103, 30, true) := by decide
example : scnMem.sample 2 = some ([[0], [4], [5]], 104, 40, false) := by decide

/-! ### Well-formedness and basic facts about `append` -/

/-- Structural well-formedness maintained by the buffer: the four arrays
have length `max_size`, the cursor is in range, the valid count is
bounded. -/
def WF (m : ReplayMemory) : Prop :=
  m.state.length = m.max_size ∧ m.action.length = m.max_size ∧
  m.reward.length = m.max_size ∧ m.isOver.length = m.max_size ∧
  m.curr_pos < m.max_size ∧ m.curr_size ≤ m.max_size

instance (m : ReplayMemory) : Decidable (WF m) := by
  unfold WF; infer_instance

lemma getD_set_self (l : List α) (i : Nat) (v d : α) (h : i < l.length) :
    (l.set i v).getD i d = v := by
  rw [List.getD_eq_getElem _ _ (by simpa using h)]
  exact List.getElem_set_self _

lemma getD_set_ne (l : List α) {i j : Nat} (v d : α) (h : i ≠ j) :
    (l.set i v).getD j d = l.getD j d := by
  rcases Nat.lt_or_ge j l.length with hj | hj
  · rw [List.getD_eq_getElem _ _ (by simpa using hj),
      List.getD_eq_getElem _ _ hj]
    exact List.getElem_set_ne h _
  · rw [List.getD_eq_default _ _ (by simpa using hj), List.getD_eq_default _ _ hj]

lemma append_max_size (m : ReplayMemory) (e : Experience) :
    (m.append e).max_size = m.max_size := by
  unfold ReplayMemory.append ReplayMemory.assign
  split <;> split <;> rfl

lemma append_history_len (m : ReplayMemory) (e : Experience) :
    (m.append e).history_len = m.history_len := by
  unfold ReplayMemory.append ReplayMemory.assign
  split <;> split <;> rfl

lemma append_state_shape (m : ReplayMemory) (e : Experience) :
    (m.append e).state_shape = m.state_shape := by
  unfold ReplayMemory.append ReplayMemory.assign
  split <;> split <;> rfl

lemma append_curr_pos (m : ReplayMemory) (e : Experience) :
    (m.append e).curr_pos = (m.curr_pos + 1) % m.max_size := by
  unfold ReplayMemory.append ReplayMemory.assign
  split <;> split <;> rfl

lemma append_curr_size (m : ReplayMemory) (e : Experience) :
    (m.append e).curr_size =
      if m.curr_size < m.max_size then m.curr_size + 1 else m.curr_size := by
  unfold ReplayMemory.append ReplayMemory.assign
  split <;> split <;> simp_all

lemma append_state (m : ReplayMemory) (e : Experience) :
    (m.append e).state = m.state.set m.curr_pos e.state := by
  unfold ReplayMemory.append ReplayMemory.assign
  split <;> split <;> rfl

lemma append_action (m : ReplayMemory) (e : Experience) :
    (m.append e).action = m.action.set m.curr_pos e.action := by
  unfold ReplayMemory.append ReplayMemory.assign
  split <;> split <;> rfl

lemma append_reward (m : ReplayMemory) (e : Experience) :
    (m.append e).reward = m.reward.set m.curr_pos e.reward := by
  unfold ReplayMemory.append ReplayMemory.assign
  split <;> split <;> rfl

lemma append_isOver (m : ReplayMemory) (e : Experience) :
    (m.append e).isOver = m.isOver.set m.curr_pos e.isOver := by
  unfold ReplayMemory.append ReplayMemory.assign
  split <;> split <;> rfl

lemma append_hist (m : ReplayMemory) (e : Experience) :
    (m.append e).hist =
      if e.isOver then [] else dequePush (m.history_len - 1) m.hist e := by
  unfold ReplayMemory.append ReplayMemory.assign
  split <;> split <;> simp_all

lemma append_WF (m : ReplayMemory) (e : Experience) (h : WF m) : WF (m.append e) := by
  obtain ⟨h1, h2, h3, h4, h5, h6⟩ := h
  refine ⟨?_, ?_, ?_, ?_, ?_, ?_⟩ <;>
    simp only [append_max_size, append_state, append_action, append_reward,
      append_isOver, append_curr_pos, append_curr_size, List.length_set]
  · exact h1
  · exact h2
  · exact h3
  · exact h4
  · exact Nat.mod_lt _ (Nat.pos_of_ne_zero (by omega))
  · split <;> omega

lemma slotGet_append (m : ReplayMemory) (e : Experience) (i : Nat)
    (h : WF m) :
    (m.append e).slotGet i = if i = m.curr_pos then e else m.slotGet i := by
  obtain ⟨h1, h2, h3, h4, h5, h6⟩ := h
  unfold ReplayMemory.slotGet
  simp only [append_state, append_action, append_reward, append_isOver]
  by_cases hip : i = m.curr_pos
  · subst hip
    rw [getD_set_self _ _ _ _ (by omega), getD_set_self _ _ _ _ (by omega),
      getD_set_self _ _ _ _ (by omega), getD_set_self _ _ _ _ (by omega)]
    simp
  · rw [getD_set_ne _ _ _ (by omega), getD_set_ne _ _ _ (by omega),
      getD_set_ne _ _ _ (by omega), getD_set_ne _ _ _ (by omega)]
    simp [hip]

lemma appendAll_append_one (m : ReplayMemory) (es : List Experience) (e : Experience) :
    appendAll m (es ++ [e]) = (appendAll m es).append e := by
  simp [appendAll, List.foldl_append]

/-! ### The ring-buffer invariant -/

/-- Characterization of the memory reached by appending `es` to a fresh
buffer of capacity `C`: the structure is well formed, the count is
`min |es| C`, the cursor is `|es| mod C`, and logical position `j`
(physical position `(curr_pos + j) % curr_size`, exactly the translation
`sample` performs) holds the `j`-th oldest retained append. -/
def ringSpec (C : Nat) (es : List Experience) (m : ReplayMemory) : Prop :=
  WF m ∧ m.max_size = C ∧ m.curr_size = min es.length C ∧
  m.curr_pos = es.length % C ∧
  ∀ j, j < m.curr_size →
    m.slotGet ((m.curr_pos + j) % m.curr_size) =
      es.getD (es.length - m.curr_size + j) dfltExp

lemma appendAll_ring (C shape hl : Nat) (hC : 0 < C) (es : List Experience) :
    ringSpec C es (appendAll (ReplayMemory.init C shape hl) es) := by
  induction es using List.reverseRecOn with
  | nil =>
    refine ⟨⟨?_, ?_, ?_, ?_, ?_, ?_⟩, ?_, ?_, ?_, ?_⟩ <;>
      simp [appendAll, ReplayMemory.init, hC]
  | append_singleton es e ih =>
    obtain ⟨ihWF, ihMax, ihSz, ihPos, ihSlot⟩ := ih
    set M := appendAll (ReplayMemory.init C shape hl) es with hM
    have hstep : appendAll (ReplayMemory.init C shape hl) (es ++ [e]) = M.append e :=
      appendAll_append_one _ _ _
    rw [hstep]
    set n := es.length with hn
    have hlen : (es ++ [e]).length = n + 1 := by simp
    rcases Nat.lt_or_ge n C with hnC | hnC
    · -- still filling: the new element goes to physical slot `n`
      have hszn : M.curr_size = n := by omega
      have hposn : M.curr_pos = n := by
        rw [ihPos, Nat.mod_eq_of_lt hnC]
      have hsz' : (M.append e).curr_size = n + 1 := by
        rw [append_curr_size, if_pos (by rw [hszn, ihMax]; omega), hszn]
      have hpos' : (M.append e).curr_pos = (n + 1) % C := by
        rw [append_curr_pos, ihMax, hposn]
      refine ⟨append_WF _ _ ihWF, by rw [append_max_size, ihMax], ?_, ?_, ?_⟩
      · rw [hsz', hlen]; omega
      · rw [hpos', hlen]
      · intro j hj
        rw [hsz'] at hj
        rw [hsz', hpos', hlen]
        have hidx : ((n + 1) % C + j) % (n + 1) = j := by
          rcases Nat.lt_or_ge (n + 1) C with h1 | h1
          · rw [Nat.mod_eq_of_lt h1, Nat.add_mod_left, Nat.mod_eq_of_lt hj]
          · have h2 : n + 1 = C := by omega
            rw [h2, Nat.mod_self, Nat.zero_add, Nat.mod_eq_of_lt (by omega)]
        rw [hidx, slotGet_append _ _ _ ihWF, hposn]
        have harith : n + 1 - (n + 1) + j = j := by omega
        rw [harith]
        by_cases hje : j = n
        · subst hje
          rw [if_pos rfl, List.getD_append_right _ _ _ _ (by omega)]
          simp
        · rw [if_neg hje, List.getD_append _ _ _ _ (by omega)]
          have hIH := ihSlot j (by omega)
          rw [hposn, hszn, Nat.add_mod_left, Nat.mod_eq_of_lt (by omega)] at hIH
          have h3 : n - n + j = j := by omega
          rwa [h3] at hIH
    · -- full: the write overwrites the oldest slot at the cursor
      have hfull : M.curr_size = C := by omega
      have hc : ¬ M.curr_size < M.max_size := by rw [hfull, ihMax]; omega
      have hsz' : (M.append e).curr_size = C := by
        rw [append_curr_size, if_neg hc, hfull]
      have hpos' : (M.append e).curr_pos = (n + 1) % C := by
        rw [append_curr_pos, ihMax, ihPos, Nat.mod_add_mod]
      refine ⟨append_WF _ _ ihWF, by rw [append_max_size, ihMax], ?_, ?_, ?_⟩
      · rw [hsz', hlen]; omega
      · rw [hpos', hlen]
      · intro j hj
        rw [hsz'] at hj
        rw [hsz', hpos', hlen, Nat.mod_add_mod, slotGet_append _ _ _ ihWF, ihPos]
        by_cases hje : j = C - 1
        · subst hje
          have h1 : n + 1 + (C - 1) = n + C := by omega
          rw [h1, Nat.add_mod_right, if_pos rfl]
          have h2 : n + 1 - C + (C - 1) = n := by omega
          rw [h2, List.getD_append_right _ _ _ _ (by omega)]
          simp
        · have hne : (n + 1 + j) % C ≠ n % C := by
            intro hcon
            have hmod : n ≡ n + 1 + j [MOD C] := (Nat.ModEq.symm hcon)
            have hdvd : C ∣ n + 1 + j - n := (Nat.modEq_iff_dvd' (by omega)).mp hmod
            have h4 : n + 1 + j - n = j + 1 := by omega
            rw [h4] at hdvd
            have := Nat.le_of_dvd (by omega) hdvd
            omega
          rw [if_neg hne]
          have hIH := ihSlot (j + 1) (by omega)
          rw [ihPos, hfull, Nat.mod_add_mod] at hIH
          have h5 : n + (j + 1) = n + 1 + j := by omega
          rw [h5] at hIH
          have h6 : n - C + (j + 1) = n + 1 - C + j := by omega
          rw [h6] at hIH
          rw [List.getD_append _ _ _ _ (by omega)]
          exact hIH

/-! ### The window `sample` reads -/

/-- The `k` consecutive retained transitions starting at physical position
`p`, wrapping modulo `_curr_size` — the window the spec's assembly rule
describes. -/
def windowExp (m : ReplayMemory) (p k : Nat) : List Experience :=
  (List.range k).map fun j => m.slotGet ((p + j) % m.curr_size)

lemma windowExp_length (m : ReplayMemory) (p k : Nat) :
    (windowExp m p k).length = k := by
  simp [windowExp]

lemma windowExp_getD (m : ReplayMemory) (p k j : Nat) (hj : j < k) :
    (windowExp m p k).getD j dfltExp = m.slotGet ((p + j) % m.curr_size) := by
  rw [List.getD_eq_getElem _ _ (by simpa [windowExp] using hj)]
  simp [windowExp]

lemma getD_take_drop (l : List α) (p k j : Nat) (d : α) (hj : j < k)
    (h : p + k ≤ l.length) :
    ((l.drop p).take k).getD j d = l.getD (p + j) d := by
  have h1 : j < ((l.drop p).take k).length := by simp; omega
  have h2 : p + j < l.length := by omega
  rw [List.getD_eq_getElem _ _ h1, List.getD_eq_getElem _ _ h2]
  simp

lemma getD_pySlice (l : List α) (p e j : Nat) (d : α) (hp : p ≤ l.length)
    (hj : j < l.length - p + e) (he : e ≤ l.length) :
    (pySlice l p e).getD j d =
      if j < l.length - p then l.getD (p + j) d
      else l.getD (j - (l.length - p)) d := by
  unfold pySlice
  split
  · rw [List.getD_append _ _ _ _ (by simp; omega)]
    have h1 : j < (l.drop p).length := by simp; omega
    have h2 : p + j < l.length := by omega
    rw [List.getD_eq_getElem _ _ h1, List.getD_eq_getElem _ _ h2]
    simp
  · rw [List.getD_append_right _ _ _ _ (by simp; omega)]
    have h1 : j - (l.length - p) < (l.take e).length := by simp; omega
    have h2 : j - (l.length - p) < l.length := by omega
    rw [List.length_drop, List.getD_eq_getElem _ _ h1, List.getD_eq_getElem _ _ h2]
    simp

/-- When the window fits below `_curr_size`, the direct numpy slice is
exactly the wrap-window of `k` consecutive transitions. -/
lemma winOf_direct (m : ReplayMemory) (arr : List α) (d : α) (g : Experience → α)
    (hg : ∀ i, g (m.slotGet i) = arr.getD i d)
    (p k : Nat) (hpk : p + k ≤ m.curr_size) (hsz : m.curr_size ≤ arr.length) :
    winOf arr m.curr_size p k = (windowExp m p k).map g := by
  unfold winOf
  rw [if_pos hpk]
  apply List.ext_getElem
  · simp [windowExp]; omega
  · intro j h1 h2
    have hjk : j < k := by simpa [windowExp] using h2
    have h3 : p + j < m.curr_size := by omega
    calc ((arr.drop p).take k)[j] = ((arr.drop p).take k).getD j d := by
          rw [List.getD_eq_getElem]
      _ = arr.getD (p + j) d := getD_take_drop _ _ _ _ _ hjk (by omega)
      _ = g (m.slotGet (p + j)) := (hg _).symm
      _ = g (m.slotGet ((p + j) % m.curr_size)) := by rw [Nat.mod_eq_of_lt h3]
      _ = ((windowExp m p k).map g)[j] := by
          rw [List.getElem_map]
          simp [windowExp]

/-- When the buffer is full and the window wraps, the two-part `_slice`
is again exactly the wrap-window of `k` consecutive transitions. -/
lemma winOf_wrap (m : ReplayMemory) (arr : List α) (d : α) (g : Experience → α)
    (hg : ∀ i, g (m.slotGet i) = arr.getD i d)
    (p k : Nat) (hp : p < m.curr_size) (hfull : arr.length = m.curr_size)
    (hwrap : m.curr_size < p + k) (hk : k ≤ m.curr_size) :
    winOf arr m.curr_size p k = (windowExp m p k).map g := by
  unfold winOf
  rw [if_neg (by omega)]
  apply List.ext_getElem
  · simp [pySlice, windowExp, hfull]; omega
  · intro j h1 h2
    have hjk : j < k := by simpa [windowExp] using h2
    have hsp : (pySlice arr p (p + k - m.curr_size)).getD j d =
        if j < arr.length - p then arr.getD (p + j) d
        else arr.getD (j - (arr.length - p)) d :=
      getD_pySlice _ _ _ _ _ (by omega) (by rw [hfull]; omega) (by omega)
    calc (pySlice arr p (p + k - m.curr_size))[j]
        = (pySlice arr p (p + k - m.curr_size)).getD j d := by
          rw [List.getD_eq_getElem]
      _ = g (m.slotGet ((p + j) % m.curr_size)) := by
          rw [hsp]
          split
          · rw [hg, Nat.mod_eq_of_lt (by omega)]
          · rw [hg]
            have h3 : (p + j) % m.curr_size = p + j - m.curr_size := by
              rw [Nat.mod_eq_sub_mod (by omega), Nat.mod_eq_of_lt (by omega)]
            rw [h3, hfull]
            congr 1
            omega
      _ = ((windowExp m p k).map g)[j] := by
          rw [List.getElem_map]
          simp [windowExp]

lemma slotGet_state (m : ReplayMemory) (i : Nat) :
    Experience.state (m.slotGet i) = m.state.getD i [] := rfl

lemma slotGet_action (m : ReplayMemory) (i : Nat) :
    Experience.action (m.slotGet i) = m.action.getD i 0 := rfl

lemma slotGet_reward (m : ReplayMemory) (i : Nat) :
    Experience.reward (m.slotGet i) = m.reward.getD i 0 := rfl

lemma slotGet_isOver (m : ReplayMemory) (i : Nat) :
    Experience.isOver (m.slotGet i) = m.isOver.getD i false := rfl

lemma getD_map_reward (w : List Experience) (n : Nat) :
    (w.map Experience.reward).getD n 0 = (w.getD n dfltExp).reward := by
  simpa [dfltExp] using List.getD_map w dfltExp Experience.reward (n := n)

lemma getD_map_action (w : List Experience) (n : Nat) :
    (w.map Experience.action).getD n 0 = (w.getD n dfltExp).action := by
  simpa [dfltExp] using List.getD_map w dfltExp Experience.action (n := n)

lemma getD_map_isOver (w : List Experience) (n : Nat) :
    (w.map Experience.isOver).getD n false = (w.getD n dfltExp).isOver := by
  simpa [dfltExp] using List.getD_map w dfltExp Experience.isOver (n := n)

/-- As long as the read does not cross the valid-region boundary of a
partially filled buffer — i.e. the buffer is full (with a window no longer
than the capacity) or the window fits below `_curr_size` — `sample`
returns the pad-processed window of `history_len + 1` consecutive
retained transitions starting at physical position
`(_curr_pos + i) % _curr_size`, with reward/action/terminal taken from
the second-to-last window element. -/
lemma sample_eq_window (m : ReplayMemory) (i : Nat) (hWF : WF m)
    (hhl : 1 ≤ m.history_len) (h0 : 0 < m.curr_size)
    (hsafe : (m.curr_size = m.max_size ∧ m.history_len + 1 ≤ m.max_size)
      ∨ (m.curr_pos + i) % m.curr_size + (m.history_len + 1) ≤ m.curr_size) :
    m.sample i = some
      (padState m.history_len
        ((windowExp m ((m.curr_pos + i) % m.curr_size) (m.history_len + 1)).map
          Experience.state)
        ((windowExp m ((m.curr_pos + i) % m.curr_size) (m.history_len + 1)).map
          Experience.isOver),
      ((windowExp m ((m.curr_pos + i) % m.curr_size) (m.history_len + 1)).getD
        (m.history_len - 1) dfltExp).reward,
      ((windowExp m ((m.curr_pos + i) % m.curr_size) (m.history_len + 1)).getD
        (m.history_len - 1) dfltExp).action,
      ((windowExp m ((m.curr_pos + i) % m.curr_size) (m.history_len + 1)).getD
        (m.history_len - 1) dfltExp).isOver) := by
  obtain ⟨hst, hac, hrw, hov, hpos, hsz⟩ := hWF
  set p := (m.curr_pos + i) % m.curr_size with hp
  set k := m.history_len + 1 with hk
  have hplt : p < m.curr_size := Nat.mod_lt _ h0
  have hwst : winOf m.state m.curr_size p k = (windowExp m p k).map Experience.state := by
    rcases le_or_lt (p + k) m.curr_size with hdir | hwrap
    · exact winOf_direct m m.state [] Experience.state (slotGet_state m) p k hdir (by omega)
    · rcases hsafe with ⟨hfull, hcap⟩ | habs
      · exact winOf_wrap m m.state [] Experience.state (slotGet_state m) p k hplt
          (by omega) hwrap (by omega)
      · omega
  have hwrw : winOf m.reward m.curr_size p k = (windowExp m p k).map Experience.reward := by
    rcases le_or_lt (p + k) m.curr_size with hdir | hwrap
    · exact winOf_direct m m.reward 0 Experience.reward (slotGet_reward m) p k hdir (by omega)
    · rcases hsafe with ⟨hfull, hcap⟩ | habs
      · exact winOf_wrap m m.reward 0 Experience.reward (slotGet_reward m) p k hplt
          (by omega) hwrap (by omega)
      · omega
  have hwac : winOf m.action m.curr_size p k = (windowExp m p k).map Experience.action := by
    rcases le_or_lt (p + k) m.curr_size with hdir | hwrap
    · exact winOf_direct m m.action 0 Experience.action (slotGet_action m) p k hdir (by omega)
    · rcases hsafe with ⟨hfull, hcap⟩ | habs
      · exact winOf_wrap m m.action 0 Experience.action (slotGet_action m) p k hplt
          (by omega) hwrap (by omega)
      · omega
  have hwov : winOf m.isOver m.curr_size p k = (windowExp m p k).map Experience.isOver := by
    rcases le_or_lt (p + k) m.curr_size with hdir | hwrap
    · exact winOf_direct m m.isOver false Experience.isOver (slotGet_isOver m) p k hdir (by omega)
    · rcases hsafe with ⟨hfull, hcap⟩ | habs
      · exact winOf_wrap m m.isOver false Experience.isOver (slotGet_isOver m) p k hplt
          (by omega) hwrap (by omega)
      · omega
  have hlenrw : (winOf m.reward m.curr_size p k).length = k := by
    rw [hwrw, List.length_map, windowExp_length]
  have hlenac : (winOf m.action m.curr_size p k).length = k := by
    rw [hwac, List.length_map, windowExp_length]
  have hlenov : (winOf m.isOver m.curr_size p k).length = k := by
    rw [hwov, List.length_map, windowExp_length]
  unfold ReplayMemory.sample
  rw [if_neg (by omega)]
  simp only [← hp, ← hk]
  rw [if_neg (by rw [hlenov]; omega), if_neg (by rw [hlenrw]; omega)]
  rw [hwst, hwrw, hwac, hwov]
  simp only [List.length_map, windowExp_length]
  have hidx : k - 2 = m.history_len - 1 := by omega
  rw [hidx, getD_map_reward, getD_map_action, getD_map_isOver]

/-! ### Claim C1 -/

/-- C1: for every append sequence into a fresh buffer of capacity `C`,
`length()` equals the number of appends while that number is at most `C`;
past capacity, `length()` stays at `C` and logical slot `j` (physical
`(curr_pos + j) % C`) holds the `(n - C + j)`-th append — in particular
(`j = 0`) the oldest retained transition is the `C`-th most recent
append, each overwrite having evicted the chronologically oldest slot. -/
theorem replay_length_and_ring_overwrite (C shape hl : Nat) (hC : 0 < C)
    (es : List Experience) :
    (es.length ≤ C →
      (appendAll (ReplayMemory.init C shape hl) es).length = es.length)
    ∧ (C < es.length →
        (appendAll (ReplayMemory.init C shape hl) es).length = C
        ∧ ∀ j, j < C →
            (appendAll (ReplayMemory.init C shape hl) es).slotGet
              (((appendAll (ReplayMemory.init C shape hl) es).curr_pos + j) % C) =
              es.getD (es.length - C + j) dfltExp) := by
  obtain ⟨hWF, hmax, hsz, hposl, hslot⟩ := appendAll_ring C shape hl hC es
  constructor
  · intro hle
    simp only [ReplayMemory.length]
    omega
  · intro hgt
    have hszC : (appendAll (ReplayMemory.init C shape hl) es).curr_size = C := by
      omega
    refine ⟨by simp only [ReplayMemory.length]; omega, ?_⟩
    intro j hj
    have := hslot j (by omega)
    rwa [hszC] at this

/-- Witness for C1 at capacity 2 and three appends: the length caps at 2
and the oldest retained transition is the second most recent append. -/
theorem replay_length_and_ring_overwrite_witness :
    (appendAll (ReplayMemory.init 2 1 2)
        [scnExp 1 false, scnExp 2 false, scnExp 3 false]).length = 2
    ∧ (appendAll (ReplayMemory.init 2 1 2)
        [scnExp 1 false, scnExp 2 false, scnExp 3 false]).slotGet
        (((appendAll (ReplayMemory.init 2 1 2)
            [scnExp 1 false, scnExp 2 false, scnExp 3 false]).curr_pos + 0) % 2) =
      scnExp 2 false := by
  have h := replay_length_and_ring_overwrite 2 1 2 (by decide)
      [scnExp 1 false, scnExp 2 false, scnExp 3 false]
  refine ⟨(h.2 (by decide)).1, ?_⟩
  have h2 := (h.2 (by decide)).2 0 (by decide)
  simpa using h2

/-! ### Claim C4 -/

/-- C4 (amended): for `0 ≤ i < size`, provided the buffer is full (with
`history_len + 1 ≤ capacity`) or the window fits below `_curr_size`
without wrapping, `sample` reads exactly `k = history_len + 1`
consecutive retained transitions starting at physical index
`(curr_pos + i) % curr_size` — wrapping via the two-part
slice-and-concatenate when needed — and returns reward, action and
terminal of the second-to-last window transition.  (The unamended claim
is refuted by `sample_reads_consecutive_window_cx`: when the buffer is
not yet full and the window would wrap, the code instead reads past the
valid region.) -/
theorem sample_reads_consecutive_window (m : ReplayMemory) (i : Nat) (hWF : WF m)
    (hi : i < m.curr_size) (hhl : 1 ≤ m.history_len)
    (hsafe : (m.curr_size = m.max_size ∧ m.history_len + 1 ≤ m.max_size)
      ∨ (m.curr_pos + i) % m.curr_size + (m.history_len + 1) ≤ m.curr_size) :
    m.sample i = some
      (padState m.history_len
        ((windowExp m ((m.curr_pos + i) % m.curr_size) (m.history_len + 1)).map
          Experience.state)
        ((windowExp m ((m.curr_pos + i) % m.curr_size) (m.history_len + 1)).map
          Experience.isOver),
      ((windowExp m ((m.curr_pos + i) % m.curr_size) (m.history_len + 1)).getD
        (m.history_len - 1) dfltExp).reward,
      ((windowExp m ((m.curr_pos + i) % m.curr_size) (m.history_len + 1)).getD
        (m.history_len - 1) dfltExp).action,
      ((windowExp m ((m.curr_pos + i) % m.curr_size) (m.history_len + 1)).getD
        (m.history_len - 1) dfltExp).isOver) :=
  sample_eq_window m i hWF hhl (by omega) hsafe

/-- Witness for C4 on the §8 scenario buffer (full, window wraps):
`sample 3` returns the window over transitions 4, 5, 1 with fields from
transition 5. -/
theorem sample_reads_consecutive_window_witness :
    scnMem.sample 3 = some ([[4], [5], [1]], 105, 50, false) := by
  have h := sample_reads_consecutive_window scnMem 3 (by decide) (by decide)
      (by decide) (Or.inl ⟨by decide, by decide⟩)
  rw [h]
  decide

/-- Counterexample to C4 as stated: capacity 5, history 1, three appends
(buffer not yet full), logical index 2 < size.  The claim predicts the
window of `k = 2` consecutive retained transitions starting at physical
`(3 + 2) % 3 = 2` with fields from its second-to-last element; the code
instead slices to the physical end of the not-yet-filled array, returning
4 frames including two never-written slots, and its reward/action come
from a never-written slot (0 rather than 103/30). -/
theorem sample_reads_consecutive_window_cx :
    (appendAll (ReplayMemory.init 5 1 1)
        [scnExp 1 false, scnExp 2 false, scnExp 3 false]).sample 2 ≠ some
      (padState
        (appendAll (ReplayMemory.init 5 1 1)
            [scnExp 1 false, scnExp 2 false, scnExp 3 false]).history_len
        ((windowExp (appendAll (ReplayMemory.init 5 1 1)
              [scnExp 1 false, scnExp 2 false, scnExp 3 false])
            (((appendAll (ReplayMemory.init 5 1 1)
                [scnExp 1 false, scnExp 2 false, scnExp 3 false]).curr_pos + 2) %
              (appendAll (ReplayMemory.init 5 1 1)
                [scnExp 1 false, scnExp 2 false, scnExp 3 false]).curr_size)
            ((appendAll (ReplayMemory.init 5 1 1)
                [scnExp 1 false, scnExp 2 false, scnExp 3 false]).history_len + 1)).map
          Experience.state)
        ((windowExp (appendAll (ReplayMemory.init 5 1 1)
              [scnExp 1 false, scnExp 2 false, scnExp 3 false])
            (((appendAll (ReplayMemory.init 5 1 1)
                [scnExp 1 false, scnExp 2 false, scnExp 3 false]).curr_pos + 2) %
              (appendAll (ReplayMemory.init 5 1 1)
                [scnExp 1 false, scnExp 2 false, scnExp 3 false]).curr_size)
            ((appendAll (ReplayMemory.init 5 1 1)
                [scnExp 1 false, scnExp 2 false, scnExp 3 false]).history_len + 1)).map
          Experience.isOver),
      ((windowExp (appendAll (ReplayMemory.init 5 1 1)
            [scnExp 1 false, scnExp 2 false, scnExp 3 false])
          (((appendAll (ReplayMemory.init 5 1 1)
              [scnExp 1 false, scnExp 2 false, scnExp 3 false]).curr_pos + 2) %
            (appendAll (ReplayMemory.init 5 1 1)
              [scnExp 1 false, scnExp 2 false, scnExp 3 false]).curr_size)
          ((appendAll (ReplayMemory.init 5 1 1)
              [scnExp 1 false, scnExp 2 false, scnExp 3 false]).history_len + 1)).getD
        ((appendAll (ReplayMemory.init 5 1 1)
            [scnExp 1 false, scnExp 2 false, scnExp 3 false]).history_len - 1)
        dfltExp).reward,
      ((windowExp (appendAll (ReplayMemory.init 5 1 1)
            [scnExp 1 false, scnExp 2 false, scnExp 3 false])
          (((appendAll (ReplayMemory.init 5 1 1)
              [scnExp 1 false, scnExp 2 false, scnExp 3 false]).curr_pos + 2) %
            (appendAll (ReplayMemory.init 5 1 1)
              [scnExp 1 false, scnExp 2 false, scnExp 3 false]).curr_size)
          ((appendAll (ReplayMemory.init 5 1 1)
              [scnExp 1 false, scnExp 2 false, scnExp 3 false]).history_len + 1)).getD
        ((appendAll (ReplayMemory.init 5 1 1)
            [scnExp 1 false, scnExp 2 false, scnExp 3 false]).history_len - 1)
        dfltExp).action,
      ((windowExp (appendAll (ReplayMemory.init 5 1 1)
            [scnExp 1 false, scnExp 2 false, scnExp 3 false])
          (((appendAll (ReplayMemory.init 5 1 1)
              [scnExp 1 false, scnExp 2 false, scnExp 3 false]).curr_pos + 2) %
            (appendAll (ReplayMemory.init 5 1 1)
              [scnExp 1 false, scnExp 2 false, scnExp 3 false]).curr_size)
          ((appendAll (ReplayMemory.init 5 1 1)
              [scnExp 1 false, scnExp 2 false, scnExp 3 false]).history_len + 1)).getD
        ((appendAll (ReplayMemory.init 5 1 1)
            [scnExp 1 false, scnExp 2 false, scnExp 3 false]).history_len - 1)
        dfltExp).isOver) := by
  decide

/-! ### Claim C7 -/

/-- C7 (amended): on a full buffer, appending a transition `t` and then
sampling at the logical index that puts `t` second-to-last in the window
(`length() - history_len`) returns exactly the reward, action and
terminal flag that were appended.  (The unamended claim, quantifying over
every buffer state, is refuted by `append_then_sample_roundtrip_cx`: on a
partially filled buffer that window wraps into never-written slots.) -/
theorem append_then_sample_roundtrip (m : ReplayMemory) (t : Experience)
    (hWF : WF m) (hfull : m.curr_size = m.max_size) (hhl : 1 ≤ m.history_len)
    (hcap : m.history_len + 1 ≤ m.max_size) :
    ∃ st, (m.append t).sample ((m.append t).length - m.history_len) =
      some (st, t.reward, t.action, t.isOver) := by
  obtain ⟨h1, h2, h3, h4, h5, h6⟩ := hWF
  have hWF' : WF (m.append t) := append_WF m t ⟨h1, h2, h3, h4, h5, h6⟩
  have hmax' := append_max_size m t
  have hhl' := append_history_len m t
  have hpos' := append_curr_pos m t
  have hsz' : (m.append t).curr_size = m.max_size := by
    rw [append_curr_size, if_neg (by omega), hfull]
  have h0 : 0 < (m.append t).curr_size := by omega
  have hieq : (m.append t).length - m.history_len = m.max_size - m.history_len := by
    simp only [ReplayMemory.length]
    rw [hsz']
  have hEq := sample_eq_window (m.append t) (m.max_size - m.history_len) hWF'
      (by rw [hhl']; exact hhl) h0 (Or.inl ⟨by rw [hsz', hmax'], by rw [hhl', hmax']; exact hcap⟩)
  have hkey : (((m.append t).curr_pos + (m.max_size - m.history_len)) %
      (m.append t).curr_size + ((m.append t).history_len - 1)) %
      (m.append t).curr_size = m.curr_pos := by
    rw [hpos', hsz', hhl', Nat.mod_add_mod, Nat.add_assoc, Nat.mod_add_mod]
    have ha : m.curr_pos + 1 + (m.max_size - m.history_len + (m.history_len - 1)) =
        m.curr_pos + m.max_size := by omega
    rw [ha, Nat.add_mod_right, Nat.mod_eq_of_lt h5]
  have hwin : (windowExp (m.append t)
      (((m.append t).curr_pos + (m.max_size - m.history_len)) % (m.append t).curr_size)
      ((m.append t).history_len + 1)).getD ((m.append t).history_len - 1) dfltExp = t := by
    rw [windowExp_getD _ _ _ _ (by omega), hkey,
      slotGet_append m t m.curr_pos ⟨h1, h2, h3, h4, h5, h6⟩, if_pos rfl]
  exact ⟨_, by rw [hieq, hEq, hwin]⟩

/-- Witness for C7: a full capacity-2 buffer; appending transition
`scnExp 4 false` and sampling at `length() - history_len = 1` yields its
reward 104, action 40 and terminal flag. -/
theorem append_then_sample_roundtrip_witness :
    ∃ st, ((appendAll (ReplayMemory.init 2 1 1)
        [scnExp 1 false, scnExp 2 false]).append (scnExp 4 false)).sample
      (((appendAll (ReplayMemory.init 2 1 1)
          [scnExp 1 false, scnExp 2 false]).append (scnExp 4 false)).length - 1) =
      some (st, 104, 40, false) :=
  append_then_sample_roundtrip
    (appendAll (ReplayMemory.init 2 1 1) [scnExp 1 false, scnExp 2 false])
    (scnExp 4 false) (by decide) (by decide) (by decide) (by decide)

/-- Counterexample to C7 as stated: on a fresh (hence not full) capacity-2
buffer with `history_len = 1`, append `⟨[7], 70, 107, false⟩` and sample at
the index that makes it second-to-last (`length() - history_len = 0`).
The wrap slice runs into the never-written tail of the array, and the
returned reward/action are the zeros of the unwritten slot, not the
appended values 107/70. -/
theorem append_then_sample_roundtrip_cx :
    ((ReplayMemory.init 2 1 1).append (scnExp 7 false)).sample
      (((ReplayMemory.init 2 1 1).append (scnExp 7 false)).length - 1) =
      some ([[7], [0], [7]], 0, 0, false)
    ∧ (0 : Int) ≠ (scnExp 7 false).reward := by
  constructor
  · decide
  · decide

/-! ### Claim C2 -/

lemma scanTerminal_none_iff (ov : List Bool) (n : Nat) :
    scanTerminal ov n = none ↔ ∀ k, k < n → ov.getD k false = false := by
  induction n with
  | zero => simp [scanTerminal]
  | succ n ih =>
    constructor
    · intro hnone k hk
      rw [scanTerminal] at hnone
      cases hb : ov.getD n false
      · rw [hb] at hnone
        simp only [Bool.false_eq_true, if_false] at hnone
        rcases Nat.lt_or_ge k n with h2 | h2
        · exact ih.mp hnone k h2
        · have hkn : k = n := by omega
          rw [hkn]; exact hb
      · rw [hb] at hnone
        simp at hnone
    · intro hall
      rw [scanTerminal]
      have hn := hall n (by omega)
      simp only [hn, Bool.false_eq_true, if_false]
      exact ih.mpr (fun k hk => hall k (by omega))

lemma scanTerminal_some_iff (ov : List Bool) (n k : Nat) :
    scanTerminal ov n = some k ↔
      k < n ∧ ov.getD k false = true ∧
        ∀ j, k < j → j < n → ov.getD j false = false := by
  induction n with
  | zero => simp [scanTerminal]
  | succ n ih =>
    rw [scanTerminal]
    cases hb : ov.getD n false
    · simp only [Bool.false_eq_true, if_false, ih]
      constructor
      · rintro ⟨hk, hkt, hmax⟩
        refine ⟨by omega, hkt, fun j hj1 hj2 => ?_⟩
        rcases Nat.lt_or_ge j n with h2 | h2
        · exact hmax j hj1 h2
        · have hjn : j = n := by omega
          rw [hjn]; exact hb
      · rintro ⟨hk, hkt, hmax⟩
        have hkn : k ≠ n := by
          intro he
          rw [he, hb] at hkt
          exact Bool.false_ne_true hkt
        exact ⟨by omega, hkt, fun j hj1 hj2 => hmax j hj1 (by omega)⟩
    · rw [if_pos rfl]
      constructor
      · intro hsome
        have hkn : n = k := by
          simpa using hsome
        subst hkn
        exact ⟨by omega, hb, fun j hj1 hj2 => by omega⟩
      · rintro ⟨hk, hkt, hmax⟩
        by_cases hkn : k = n
        · rw [hkn]
        · have := hmax n (by omega) (by omega)
          rw [this] at hb
          exact absurd hb (by simp)

/-- C2: in `_pad_sample`, if no transition in the scanned window prefix
(relative positions `history_len - 2` down to `0`, i.e. all `p` with
`p + 2 ≤ history_len`) is terminal, the stacked state keeps the stored
frames unmodified; if some scanned position is terminal and `p` is the
latest such position, exactly the frames at indices `≤ p` are zero-filled
(keeping their shapes) and every later frame is returned intact. -/
theorem pad_sample_zero_fill (hl : Nat) (st : List (List Nat)) (ov : List Bool) :
    ((∀ p, p + 2 ≤ hl → ov.getD p false = false) → padState hl st ov = st)
    ∧ (∀ p, p + 2 ≤ hl → ov.getD p false = true →
        (∀ j, p < j → j + 2 ≤ hl → ov.getD j false = false) →
        (padState hl st ov).length = st.length ∧
        ∀ i, (padState hl st ov).getD i [] =
          if i ≤ p then List.replicate (st.getD i []).length 0
          else st.getD i []) := by
  constructor
  · intro hall
    have hnone : scanTerminal ov (hl - 1) = none :=
      (scanTerminal_none_iff ov (hl - 1)).mpr (fun k hk => hall k (by omega))
    unfold padState
    rw [hnone]
  · intro p hp hpt hmax
    have hsome : scanTerminal ov (hl - 1) = some p :=
      (scanTerminal_some_iff ov (hl - 1) p).mpr
        ⟨by omega, hpt, fun j hj1 hj2 => hmax j hj1 (by omega)⟩
    unfold padState
    rw [hsome]
    refine ⟨by simp, ?_⟩
    intro i
    rcases Nat.lt_or_ge i st.length with hi | hi
    · have hi' : i < (st.mapIdx fun i s => if i ≤ p then s.map (fun _ => 0) else s).length := by
        simpa using hi
      rw [List.getD_eq_getElem _ _ hi', List.getD_eq_getElem _ _ hi]
      have hmi := List.get_mapIdx st (fun i s => if i ≤ p then s.map (fun _ => 0) else s) i hi
      calc (st.mapIdx fun i s => if i ≤ p then s.map (fun _ => 0) else s)[i]
          = (st.mapIdx fun i s => if i ≤ p then s.map (fun _ => 0) else s).get ⟨i, hi'⟩ :=
            rfl
        _ = if i ≤ p then (st.get ⟨i, hi⟩).map (fun _ => 0) else st.get ⟨i, hi⟩ := hmi
        _ = if i ≤ p then List.replicate st[i].length 0 else st[i] := by
            split <;> simp [List.map_const', List.get_eq_getElem]
    · rw [List.getD_eq_default _ _ (by simpa using hi), List.getD_eq_default _ _ hi]
      split <;> simp

/-- Witness for C2 with `history_len = 3` and a terminal flag at scanned
position 1: frames 0 and 1 are zeroed (keeping shape), frame 2 survives. -/
theorem pad_sample_zero_fill_witness :
    (padState 3 [[1], [2], [3], [4]] [false, true, false, false]).getD 1 [] = [0]
    ∧ (padState 3 [[1], [2], [3], [4]] [false, true, false, false]).getD 2 [] = [3] := by
  have h := (pad_sample_zero_fill 3 [[1], [2], [3], [4]]
      [false, true, false, false]).2 1 (by decide) (by decide)
      (fun j hj1 hj2 => absurd hj2 (by omega))
  constructor
  · have h1 := h.2 1
    simpa using h1
  · have h2 := h.2 2
    simpa using h2

/-! ### Claim C3 -/

/-- Counterexample to C3 as stated: in the §8 scenario the claim says the
stacked state of `sample(0)` is `[1, 2]`; the code returns the
`history_len + 1 = 3` stored frames `[1, 2, 3]`. -/
theorem scenario_stacked_state_cx :
    ¬ ((scnMem.sample 0).map (fun r => r.1) = some [[1], [2]]) := by
  decide

/-- C3 (amended): capacity 5, history 2, shape 1×1, appending states
1,2,3(terminal),4,5: `length() = 5`; `sample 0` performs no zeroing (no
terminal in its scanned prefix) and returns the three stored frames
`[1,2,3]` with reward/action/terminal of the transition with state 2;
`sample 1` likewise performs no zeroing — the terminal flag of frame 3
sits outside the scanned prefix — returning frames `[2,3,4]` intact with
the fields of the transition with state 3. -/
theorem scenario_capacity5 :
    scnMem.length = 5
    ∧ scnMem.sample 0 = some ([[1], [2], [3]], 102, 20, false)
    ∧ scnMem.sample 1 = some ([[2], [3], [4]], 103, 30, true) := by
  refine ⟨by decide, by decide, by decide⟩

/-! ### The recent-history deque: claims C5 and C6 -/

/-- The tail of the append sequence after the last terminal transition
(the whole sequence if none is terminal): exactly the transitions of the
current in-progress episode. -/
def episodeTail (es : List Experience) : List Experience :=
  (es.reverse.takeWhile (fun e => ! e.isOver)).reverse

/-- The last `n` elements of a list. -/
def lastN (n : Nat) (l : List α) : List α := l.drop (l.length - n)

lemma appendAll_history_len (m : ReplayMemory) (es : List Experience) :
    (appendAll m es).history_len = m.history_len := by
  induction es using List.reverseRecOn with
  | nil => rfl
  | append_singleton es e ih => rw [appendAll_append_one, append_history_len, ih]

lemma appendAll_state_shape (m : ReplayMemory) (es : List Experience) :
    (appendAll m es).state_shape = m.state_shape := by
  induction es using List.reverseRecOn with
  | nil => rfl
  | append_singleton es e ih => rw [appendAll_append_one, append_state_shape, ih]

lemma dequePush_lastN (l : List α) (n : Nat) (x : α) :
    dequePush n (lastN n l) x = lastN n (l ++ [x]) := by
  unfold dequePush lastN
  rw [List.length_drop,
    ← List.drop_append_of_le_length (by omega : l.length - n ≤ l.length),
    List.drop_drop]
  have hlen : (l ++ [x]).length = l.length + 1 := by simp
  rw [hlen]
  congr 1
  omega

lemma takeWhile_append_of_all (l1 : List α) (x : α) (l2 : List α) (p : α → Bool)
    (hall : ∀ a ∈ l1, p a = true) (hx : p x = false) :
    (l1 ++ x :: l2).takeWhile p = l1 := by
  induction l1 with
  | nil => simp [List.takeWhile_cons, hx]
  | cons a as ih =>
    rw [List.cons_append, List.takeWhile_cons, hall a (by simp)]
    simp only [if_true]
    rw [ih (fun b hb => hall b (by simp [hb]))]

lemma takeWhile_of_all (l : List α) (p : α → Bool) (hall : ∀ a ∈ l, p a = true) :
    l.takeWhile p = l := by
  induction l with
  | nil => rfl
  | cons a as ih =>
    rw [List.takeWhile_cons, hall a (by simp)]
    simp only [if_true]
    rw [ih (fun b hb => hall b (by simp [hb]))]

lemma episodeTail_append_terminal (es : List Experience) (e : Experience)
    (he : e.isOver = true) : episodeTail (es ++ [e]) = [] := by
  unfold episodeTail
  rw [List.reverse_append]
  simp [List.takeWhile_cons, he]

lemma episodeTail_append_nonterminal (es : List Experience) (e : Experience)
    (he : e.isOver = false) :
    episodeTail (es ++ [e]) = episodeTail es ++ [e] := by
  unfold episodeTail
  rw [List.reverse_append]
  simp [List.takeWhile_cons, he]

lemma episodeTail_of_nonterminal (es : List Experience)
    (hall : ∀ e ∈ es, e.isOver = false) : episodeTail es = es := by
  unfold episodeTail
  rw [takeWhile_of_all _ _ (fun a ha => by
    simp [hall a (List.mem_reverse.mp ha)])]
  exact List.reverse_reverse es

lemma episodeTail_mid_terminal (es1 : List Experience) (t : Experience)
    (es2 : List Experience) (ht : t.isOver = true)
    (hall : ∀ e ∈ es2, e.isOver = false) :
    episodeTail (es1 ++ t :: es2) = es2 := by
  unfold episodeTail
  have hrev : (es1 ++ t :: es2).reverse = es2.reverse ++ t :: es1.reverse := by
    simp
  rw [hrev, takeWhile_append_of_all _ _ _ _
    (fun a ha => by simp [hall a (List.mem_reverse.mp ha)]) (by simp [ht])]
  exact List.reverse_reverse es2

/-- The deque `_hist` after any append sequence is the last
`history_len - 1` transitions of the current episode's tail. -/
lemma appendAll_hist_model (C shape hl : Nat) (es : List Experience) :
    (appendAll (ReplayMemory.init C shape hl) es).hist =
      lastN (hl - 1) (episodeTail es) := by
  induction es using List.reverseRecOn with
  | nil => simp [appendAll, ReplayMemory.init, episodeTail, lastN]
  | append_singleton es e ih =>
    rw [appendAll_append_one, append_hist]
    cases he : e.isOver
    · simp only [Bool.false_eq_true, if_false]
      rw [appendAll_history_len, ih, episodeTail_append_nonterminal es e he]
      exact dequePush_lastN _ _ _
    · simp only [if_true]
      rw [episodeTail_append_terminal es e he]
      simp [lastN]

lemma lastN_length_le (n : Nat) (l : List α) : (lastN n l).length ≤ n := by
  simp [lastN]
  omega

lemma lastN_of_le (n : Nat) (l : List α) (h : l.length ≤ n) : lastN n l = l := by
  unfold lastN
  rw [Nat.sub_eq_zero_of_le h, List.drop_zero]

/-- C6: after every append sequence the recent-history deque holds no
terminal transition and at most `history_len - 1` entries; appending a
terminal transition empties it, and appending a non-terminal transition
pushes onto it with bounded-deque (evict-oldest) semantics. -/
theorem recent_history_invariant (C shape hl : Nat) (es : List Experience) :
    (∀ e ∈ (appendAll (ReplayMemory.init C shape hl) es).hist, e.isOver = false)
    ∧ (appendAll (ReplayMemory.init C shape hl) es).hist.length ≤ hl - 1
    ∧ (∀ e, e.isOver = true →
        (appendAll (ReplayMemory.init C shape hl) (es ++ [e])).hist = [])
    ∧ (∀ e, e.isOver = false →
        (appendAll (ReplayMemory.init C shape hl) (es ++ [e])).hist =
          dequePush (hl - 1)
            (appendAll (ReplayMemory.init C shape hl) es).hist e) := by
  refine ⟨?_, ?_, ?_, ?_⟩
  · intro e he
    rw [appendAll_hist_model] at he
    have h1 : e ∈ episodeTail es := List.drop_subset _ _ he
    have h2 : e ∈ es.reverse.takeWhile (fun e => ! e.isOver) :=
      List.mem_reverse.mp h1
    have h3 := List.mem_takeWhile_imp h2
    simpa using h3
  · rw [appendAll_hist_model]
    exact lastN_length_le _ _
  · intro e he
    rw [appendAll_append_one, append_hist]
    simp [he]
  · intro e he
    rw [appendAll_append_one, append_hist]
    simp only [he, Bool.false_eq_true, if_false]
    rw [appendAll_history_len]
    rfl

/-- Witness for C6: with `history_len = 3`, after appends
1, 2(terminal), 3, a terminal append empties the deque, and the deque
holds at most 2 entries. -/
theorem recent_history_invariant_witness :
    (appendAll (ReplayMemory.init 5 1 3)
      ([scnExp 1 false, scnExp 2 true, scnExp 3 false] ++ [scnExp 9 true])).hist = []
    ∧ (appendAll (ReplayMemory.init 5 1 3)
        [scnExp 1 false, scnExp 2 true, scnExp 3 false]).hist.length ≤ 2 := by
  have h := recent_history_invariant 5 1 3 [scnExp 1 false, scnExp 2 true, scnExp 3 false]
  exact ⟨h.2.2.1 (scnExp 9 true) (by decide), h.2.1⟩

/-- C5: `recent_state()` always returns exactly `history_len - 1` frames;
immediately after a terminal append (or on the fresh buffer) they are all
zero-filled frames of the configured shape; after `N < history_len - 1`
non-terminal appends since the last terminal (or since creation) it
returns `history_len - 1 - N` zero frames followed by the `N` appended
states in chronological order. -/
theorem recent_state_spec (C shape hl : Nat) (hhl : 1 ≤ hl) :
    (∀ es, (appendAll (ReplayMemory.init C shape hl) es).recent_state.length = hl - 1)
    ∧ (ReplayMemory.init C shape hl).recent_state =
        List.replicate (hl - 1) (List.replicate shape 0)
    ∧ (∀ es e, e.isOver = true →
        (appendAll (ReplayMemory.init C shape hl) (es ++ [e])).recent_state =
          List.replicate (hl - 1) (List.replicate shape 0))
    ∧ (∀ es1 t es2, t.isOver = true → (∀ e ∈ es2, e.isOver = false) →
        es2.length < hl - 1 →
        (appendAll (ReplayMemory.init C shape hl) (es1 ++ t :: es2)).recent_state =
          List.replicate ((hl - 1) - es2.length) (List.replicate shape 0)
            ++ es2.map Experience.state)
    ∧ (∀ es2, (∀ e ∈ es2, e.isOver = false) → es2.length < hl - 1 →
        (appendAll (ReplayMemory.init C shape hl) es2).recent_state =
          List.replicate ((hl - 1) - es2.length) (List.replicate shape 0)
            ++ es2.map Experience.state) := by
  refine ⟨?_, ?_, ?_, ?_, ?_⟩
  · intro es
    have hle : (appendAll (ReplayMemory.init C shape hl) es).hist.length ≤ hl - 1 := by
      rw [appendAll_hist_model]
      exact lastN_length_le _ _
    unfold ReplayMemory.recent_state
    rw [List.length_append, List.length_replicate, List.length_map,
      appendAll_history_len,
      show (ReplayMemory.init C shape hl).history_len = hl from rfl]
    omega
  · simp [ReplayMemory.recent_state, ReplayMemory.init]
  · intro es e he
    unfold ReplayMemory.recent_state
    have hh : (appendAll (ReplayMemory.init C shape hl) (es ++ [e])).hist = [] := by
      rw [appendAll_append_one, append_hist]
      simp [he]
    rw [hh, appendAll_history_len, appendAll_state_shape]
    simp [ReplayMemory.init]
  · intro es1 t es2 ht hall hlen
    unfold ReplayMemory.recent_state
    have hh : (appendAll (ReplayMemory.init C shape hl) (es1 ++ t :: es2)).hist = es2 := by
      rw [appendAll_hist_model, episodeTail_mid_terminal es1 t es2 ht hall]
      exact lastN_of_le _ _ (by omega)
    rw [hh, appendAll_history_len, appendAll_state_shape]
    simp [ReplayMemory.init]
  · intro es2 hall hlen
    unfold ReplayMemory.recent_state
    have hh : (appendAll (ReplayMemory.init C shape hl) es2).hist = es2 := by
      rw [appendAll_hist_model, episodeTail_of_nonterminal es2 hall]
      exact lastN_of_le _ _ (by omega)
    rw [hh, appendAll_history_len, appendAll_state_shape]
    simp [ReplayMemory.init]

/-- Witness for C5: `history_len = 3`, one non-terminal append since a
terminal: one zero frame of shape 1, then the appended state. -/
theorem recent_state_spec_witness :
    (appendAll (ReplayMemory.init 5 1 3)
      ([scnExp 1 false] ++ scnExp 2 true :: [scnExp 9 false])).recent_state =
      [[0], [9]] := by
  have h := (recent_state_spec 5 1 3 (by decide)).2.2.2.1 [scnExp 1 false]
      (scnExp 2 true) [scnExp 9 false] (by decide) (by decide) (by decide)
  simpa using h

/-! ### Claim C8 -/

lemma winOf_length_ge (arr : List α) (size idx k : Nat) (hidx : idx < size)
    (hsz : size ≤ arr.length) (he : idx + k - size ≤ arr.length) :
    k ≤ (winOf arr size idx k).length := by
  unfold winOf
  split
  · simp
    omega
  · simp [pySlice]
    omega

/-- C8 (amended): `sample` performs no validation at all.  For every
well-formed buffer with at least one stored transition (and
`1 ≤ history_len ≤ capacity`), every index — including every index whose
window would need more transitions than are valid — returns `some`
result rather than an "insufficient history" (or any other) error; the
out-of-range part of the window silently comes from stale /
zero-initialized slots, as `sample_no_validation_cx` exhibits.  Only the
empty buffer fails, with a modulo-by-zero, not an explicit message. -/
theorem sample_no_validation (m : ReplayMemory) (i : Nat) (hWF : WF m)
    (hhl : 1 ≤ m.history_len) (hcap : m.history_len ≤ m.max_size)
    (h0 : 0 < m.curr_size) :
    (m.sample i).isSome = true := by
  obtain ⟨hst, hac, hrw, hov, hpos, hsz⟩ := hWF
  have hidx : (m.curr_pos + i) % m.curr_size < m.curr_size := Nat.mod_lt _ h0
  have hovlen : m.history_len + 1 ≤
      (winOf m.isOver m.curr_size ((m.curr_pos + i) % m.curr_size)
        (m.history_len + 1)).length :=
    winOf_length_ge _ _ _ _ hidx (by omega) (by omega)
  have hrwlen : m.history_len + 1 ≤
      (winOf m.reward m.curr_size ((m.curr_pos + i) % m.curr_size)
        (m.history_len + 1)).length :=
    winOf_length_ge _ _ _ _ hidx (by omega) (by omega)
  simp only [ReplayMemory.sample]
  rw [if_neg (by omega), if_neg (by omega), if_neg (by omega)]
  rfl

/-- Witness for C8: two appends into a capacity-5 buffer with
`history_len = 2`; `sample 0` needs three valid transitions but still
returns `some`. -/
theorem sample_no_validation_witness :
    ((appendAll (ReplayMemory.init 5 1 2)
      [scnExp 1 false, scnExp 2 false]).sample 0).isSome = true :=
  sample_no_validation
    (appendAll (ReplayMemory.init 5 1 2) [scnExp 1 false, scnExp 2 false]) 0
    (by decide) (by decide) (by decide) (by decide)

/-- Counterexample to C8 as stated: with only 2 of the 3 transitions the
window needs, the call does not fail with an "insufficient history"
error — it succeeds, and its returned reward/action (second-to-last
window position) come from a never-written, zero-initialized slot (0/0
instead of any appended value), exactly the stale read the claim says is
prevented. -/
theorem sample_no_validation_cx :
    (appendAll (ReplayMemory.init 5 1 2)
      [scnExp 1 false, scnExp 2 false]).sample 0 =
      some ([[1], [2], [0], [0], [0], [1]], 0, 0, false) := by
  decide

/-! ### Claim C9: metric emission in the periodic triggers -/

/-- Abstract host monitor for the periodic triggers: which named scalar
emissions raise, plus the two stat counters whose emptiness the
`ExpReplay._trigger` branches test. -/
structure TriggerEnv where
  fails : String → Bool
  numGamesCount : Nat
  numSuccessCount : Nat

/-- `self.trainer.monitors.put_scalar(name, value)`: raises — modelled as
`Except.error name` — exactly when the host monitor fails on that
emission. -/
def putScalar (env : TriggerEnv) (name : String) : Except String Unit :=
  if env.fails name then Except.error name else Except.ok ()

/-- The four score/distance emissions inside the `try` block of
`ExpReplay._trigger` (expreplay.py lines 301-307); the first failure
aborts the block, as sequential statements do. -/
def scoreBlock (env : TriggerEnv) : Except String Unit := do
  putScalar env "expreplay/mean_score"
  putScalar env "expreplay/max_score"
  putScalar env "expreplay/mean_dist"
  putScalar env "expreplay/max_dist"

/-- `ExpReplay._trigger` (expreplay.py lines 297-333): the try/except
catches any failure of the score block and logs
"Cannot log training scores."; the subsequent `n_games`, `n_success` and
`n_success_ratio` emissions sit outside the try/except (both branches of
each count test emit the same scalar names, only the values differ, which
the model drops), so their failures propagate.  The result is the list of
logged messages, or the propagated exception. -/
def expReplayTrigger (env : TriggerEnv) : Except String (List String) := do
  let logs := match scoreBlock env with
    | Except.ok _ => ([] : List String)
    | Except.error _ => ["Cannot log training scores."]
  if env.numGamesCount ≠ 0 then putScalar env "n_games"
  else putScalar env "n_games"
  if env.numSuccessCount ≠ 0 then do
    putScalar env "n_success"
    putScalar env "n_success_ratio"
  else do
    putScalar env "n_success"
    putScalar env "n_success_ratio"
  return logs

/-- `Evaluator._trigger` (common.py lines 232-246): four scalar
emissions with no try/except at all — any failure propagates. -/
def evaluatorTrigger (env : TriggerEnv) : Except String Unit := do
  putScalar env "mean_score"
  putScalar env "max_score"
  putScalar env "mean_distance"
  putScalar env "max_distance"

/-- C9 (amended): only the four expreplay score/distance emissions are
protected: whenever the `n_games` / `n_success` / `n_success_ratio`
emissions themselves do not fail, `ExpReplay._trigger` completes
normally whatever the score block does — silently when the score block
succeeded, logging "Cannot log training scores." when it raised.
Failures of the unprotected later emissions, and of every emission of
`Evaluator._trigger`, propagate (see `trigger_failures_propagate_cx`). -/
theorem trigger_score_failures_caught (env : TriggerEnv)
    (h1 : env.fails "n_games" = false)
    (h2 : env.fails "n_success" = false)
    (h3 : env.fails "n_success_ratio" = false) :
    (scoreBlock env = Except.ok () → expReplayTrigger env = Except.ok [])
    ∧ (∀ s, scoreBlock env = Except.error s →
        expReplayTrigger env = Except.ok ["Cannot log training scores."]) := by
  constructor
  · intro hok
    simp only [expReplayTrigger, putScalar, h1, h2, h3, hok, Bool.false_eq_true,
      if_false, ite_self]
    rfl
  · intro s herr
    simp only [expReplayTrigger, putScalar, h1, h2, h3, herr, Bool.false_eq_true,
      if_false, ite_self]
    rfl

/-- Witness for C9: an environment whose `expreplay/mean_score` emission
fails; the trigger still completes, logging the caught failure. -/
theorem trigger_score_failures_caught_witness :
    expReplayTrigger (TriggerEnv.mk (fun n => n == "expreplay/mean_score") 1 0) =
      Except.ok ["Cannot log training scores."] := by
  exact (trigger_score_failures_caught
      (TriggerEnv.mk (fun n => n == "expreplay/mean_score") 1 0)
      (by decide) (by decide) (by decide)).2
    "expreplay/mean_score" rfl

/-- Counterexample to C9 as stated: a failing `n_games` emission escapes
`ExpReplay._trigger`, and a failing `max_score` emission escapes
`Evaluator._trigger` — metric-emission failures that do abort the run. -/
theorem trigger_failures_propagate_cx :
    expReplayTrigger (TriggerEnv.mk (fun n => n == "n_games") 1 1) =
      Except.error "n_games"
    ∧ evaluatorTrigger (TriggerEnv.mk (fun n => n == "max_score") 1 1) =
      Except.error "max_score" := by
  constructor
  · rfl
  · rfl

/-! ### Claim C10: reads never mutate the memory -/

/-- A numpy array as `_pad_sample` receives the state window: either a
view into the memory's state storage (an offset/length pair — writes go
through to the backing buffer) or an owned array (the results of
`np.concatenate` and `copy.deepcopy` — writes stay local). -/
inductive NpArr where
  | view (off len : Nat)
  | owned (frames : List (List Nat))

/-- The frames an `NpArr` denotes, relative to the backing buffer. -/
def NpArr.frames (buf : List (List Nat)) : NpArr → List (List Nat)
  | NpArr.view off len => (buf.drop off).take len
  | NpArr.owned fs => fs

/-- `copy.deepcopy(state)`: materializes the window as an owned array. -/
def NpArr.deepcopy (buf : List (List Nat)) (a : NpArr) : NpArr :=
  NpArr.owned (a.frames buf)

/-- `state[:cnt].fill(0)` with numpy aliasing semantics: zero every entry
of the first `cnt` frames; on a view this writes through to the backing
buffer, on an owned array the buffer is untouched.  Returns the updated
array together with the resulting buffer. -/
def NpArr.fillZero (buf : List (List Nat)) (a : NpArr) (cnt : Nat) :
    NpArr × List (List Nat) :=
  match a with
  | NpArr.owned fs =>
      (NpArr.owned (fs.mapIdx fun i s => if i < cnt then s.map (fun _ => 0) else s),
        buf)
  | NpArr.view off len =>
      (NpArr.view off len,
        buf.mapIdx fun i s =>
          if off ≤ i ∧ i < off + min cnt len then s.map (fun _ => 0) else s)

/-- `_pad_sample` with the state window's aliasing tracked: the source
deep-copies the window (expreplay.py line 93) before the `fill(0)` of
line 94, so the zeroing acts on the owned copy. -/
def padSampleTracked (hl : Nat) (buf : List (List Nat)) (st : NpArr)
    (rw ac : List Int) (ov : List Bool) :
    (List (List Nat) × Int × Int × Bool) × List (List Nat) :=
  match scanTerminal ov (hl - 1) with
  | none =>
      ((st.frames buf, rw.getD (rw.length - 2) 0, ac.getD (ac.length - 2) 0,
        ov.getD (ov.length - 2) false), buf)
  | some k =>
      let st2 := NpArr.deepcopy buf st
      let res := NpArr.fillZero buf st2 (k + 1)
      (((res.1).frames res.2, rw.getD (rw.length - 2) 0,
        ac.getD (ac.length - 2) 0, ov.getD (ov.length - 2) false), res.2)

/-- `ReplayMemory.sample` with mutation tracking: in the direct branch
the state window `self.state[idx : idx + k]` is a view into the storage;
in the wrap branch `np.concatenate` allocates an owned array.  Returns
the sample together with the memory as it stands afterwards. -/
def ReplayMemory.sampleTracked (m : ReplayMemory) (i : Nat) :
    Option ((List (List Nat) × Int × Int × Bool) × ReplayMemory) :=
  if m.curr_size = 0 then none
  else
    let idx := (m.curr_pos + i) % m.curr_size
    let k := m.history_len + 1
    let st : NpArr := if idx + k ≤ m.curr_size then NpArr.view idx k
      else NpArr.owned (pySlice m.state idx (idx + k - m.curr_size))
    let rw := winOf m.reward m.curr_size idx k
    let ac := winOf m.action m.curr_size idx k
    let ov := winOf m.isOver m.curr_size idx k
    if 2 ≤ m.history_len ∧ ov.length < m.history_len - 1 then none
    else if rw.length < 2 then none
    else
      let res := padSampleTracked m.history_len m.state st rw ac ov
      some (res.1, { m with state := res.2 })

lemma padSampleTracked_spec (hl : Nat) (buf : List (List Nat)) (st : NpArr)
    (rw ac : List Int) (ov : List Bool) :
    padSampleTracked hl buf st rw ac ov =
      ((padState hl (st.frames buf) ov, rw.getD (rw.length - 2) 0,
        ac.getD (ac.length - 2) 0, ov.getD (ov.length - 2) false), buf) := by
  unfold padSampleTracked padState
  cases hscan : scanTerminal ov (hl - 1) with
  | none => rfl
  | some k =>
    simp only [NpArr.deepcopy, NpArr.fillZero, NpArr.frames, Nat.lt_succ_iff]

lemma stArr_frames (m : ReplayMemory) (idx k : Nat) :
    NpArr.frames m.state
      (if idx + k ≤ m.curr_size then NpArr.view idx k
       else NpArr.owned (pySlice m.state idx (idx + k - m.curr_size))) =
      winOf m.state m.curr_size idx k := by
  unfold winOf
  split <;> rfl

/-- C10: the read operations never modify the buffer.  `recent_state` and
`length` are pure functions of the memory in this embedding; for `sample`
— whose terminal-boundary zeroing writes into a window that, in the
direct branch, is a view of the storage — the aliasing-tracked run
returns the memory unchanged and the same sample as the pure `sample`,
because the window is deep-copied before the zero-fill. -/
theorem sample_never_mutates (m : ReplayMemory) (i : Nat) :
    m.sampleTracked i = (m.sample i).map (fun r => (r, m)) := by
  by_cases h0 : m.curr_size = 0
  · simp [ReplayMemory.sampleTracked, ReplayMemory.sample, h0]
  · simp only [ReplayMemory.sampleTracked, ReplayMemory.sample, if_neg h0]
    by_cases g1 : 2 ≤ m.history_len ∧
        (winOf m.isOver m.curr_size ((m.curr_pos + i) % m.curr_size)
          (m.history_len + 1)).length < m.history_len - 1
    · rw [if_pos g1, if_pos g1]
      rfl
    · rw [if_neg g1, if_neg g1]
      by_cases g2 : (winOf m.reward m.curr_size ((m.curr_pos + i) % m.curr_size)
          (m.history_len + 1)).length < 2
      · rw [if_pos g2, if_pos g2]
        rfl
      · rw [if_neg g2, if_neg g2]
        rw [padSampleTracked_spec, stArr_frames]
        rfl
